import Mathlib

/-!
Verification of the pusher-http-rust library core: channel classification,
request signing, webhook verification, channel authorization and per-channel
secret derivation, shallowly embedded from the Rust sources
(`src/token.rs`, `src/util.rs`, `src/channel.rs`, `src/pusher.rs`,
`src/auth.rs`, `src/webhook.rs`, `src/events.rs`).

Rust strings are modelled as `List Char` (`Str`); byte-level operations
(`str::len`, `as_bytes`, the `subtle` crate's byte comparison, hashing) go
through an explicit UTF-8 encoder, so `len` is the byte length exactly as in
Rust. Machine integers are `Nat` with explicit reduction modulo `2 ^ 32`
where the hash primitives overflow.
-/

namespace PusherRust

/-- Rust `String` / `&str`: a list of Unicode scalar values. -/
abbrev Str := List Char

/-- Shorthand to write a model string from a Lean literal. -/
def str (s : String) : Str := s.data

/-! ## UTF-8 and text encodings -/

/-- UTF-8 encoding of one Unicode scalar value, as Rust's `str::as_bytes`
produces it (1 to 4 bytes). -/
def utf8EncodeChar (c : Char) : List Nat :=
  let n := c.toNat
  if n < 0x80 then [n]
  else if n < 0x800 then
    [0xC0 ||| (n >>> 6), 0x80 ||| (n &&& 0x3F)]
  else if n < 0x10000 then
    [0xE0 ||| (n >>> 12), 0x80 ||| ((n >>> 6) &&& 0x3F), 0x80 ||| (n &&& 0x3F)]
  else
    [0xF0 ||| (n >>> 18), 0x80 ||| ((n >>> 12) &&& 0x3F),
     0x80 ||| ((n >>> 6) &&& 0x3F), 0x80 ||| (n &&& 0x3F)]

/-- The bytes of a Rust string (`s.as_bytes()`); `s.len()` in Rust is the
length of this list. -/
def utf8Bytes (s : Str) : List Nat := s.flatMap utf8EncodeChar

/-- Rust `str::len` (a byte count, not a character count). -/
def byteLen (s : Str) : Nat := (utf8Bytes s).length

/-- Lower-case hex digit, as the `hex` crate's encoding table. -/
def hexDigitChar (n : Nat) : Char := (str "0123456789abcdef").getD n '0'

/-- `hex::encode`: two lower-case hex digits per byte. -/
def hexEncode (bs : List Nat) : Str :=
  bs.flatMap (fun b => [hexDigitChar ((b >>> 4) &&& 0xF), hexDigitChar (b &&& 0xF)])

/-- The standard base64 alphabet (`base64::engine::general_purpose::STANDARD`). -/
def base64Digit (n : Nat) : Char :=
  (str "ABCDEFGHIJKLMNOPQRSTUVWXYZabcdefghijklmnopqrstuvwxyz0123456789+/").getD n 'A'

/-- `base64` STANDARD encoding with `=` padding. -/
def base64Encode : List Nat → Str
  | [] => []
  | [a] => [base64Digit (a >>> 2), base64Digit ((a &&& 3) <<< 4), '=', '=']
  | [a, b] => [base64Digit (a >>> 2), base64Digit (((a &&& 3) <<< 4) ||| (b >>> 4)),
               base64Digit ((b &&& 15) <<< 2), '=']
  | a :: b :: c :: rest =>
      base64Digit (a >>> 2) :: base64Digit (((a &&& 3) <<< 4) ||| (b >>> 4)) ::
      base64Digit (((b &&& 15) <<< 2) ||| (c >>> 6)) :: base64Digit (c &&& 63) ::
      base64Encode rest

/-! ## 32-bit word arithmetic for the hash primitives -/

/-- Reduce to a 32-bit word. -/
def m32 (n : Nat) : Nat := n % 2 ^ 32

/-- Bitwise complement on 32-bit words. -/
def not32 (x : Nat) : Nat := 0xFFFFFFFF ^^^ x

/-- Rotate a 32-bit word right by `n`. -/
def rotr32 (n x : Nat) : Nat := m32 ((x >>> n) ||| (x <<< (32 - n)))

/-- Rotate a 32-bit word left by `n`. -/
def rotl32 (n x : Nat) : Nat := m32 ((x <<< n) ||| (x >>> (32 - n)))

/-- Big-endian bytes of one 32-bit word. -/
def word32BytesBE (w : Nat) : List Nat :=
  [(w >>> 24) &&& 0xFF, (w >>> 16) &&& 0xFF, (w >>> 8) &&& 0xFF, w &&& 0xFF]

/-- Little-endian bytes of one 32-bit word. -/
def word32BytesLE (w : Nat) : List Nat :=
  [w &&& 0xFF, (w >>> 8) &&& 0xFF, (w >>> 16) &&& 0xFF, (w >>> 24) &&& 0xFF]

/-- Pack bytes into big-endian 32-bit words (4 bytes each). -/
def bytesToWordsBE : List Nat → List Nat
  | a :: b :: c :: d :: rest => (((a <<< 24) ||| (b <<< 16)) ||| ((c <<< 8) ||| d)) :: bytesToWordsBE rest
  | _ => []

/-- Pack bytes into little-endian 32-bit words (4 bytes each). -/
def bytesToWordsLE : List Nat → List Nat
  | a :: b :: c :: d :: rest => (((d <<< 24) ||| (c <<< 16)) ||| ((b <<< 8) ||| a)) :: bytesToWordsLE rest
  | _ => []

/-- Split a byte stream into 64-byte blocks. -/
def chunks64 (l : List Nat) : List (List Nat) :=
  if h : l = [] then [] else l.take 64 :: chunks64 (l.drop 64)
termination_by l.length
decreasing_by
  simp only [List.length_drop]
  have : 0 < l.length := List.length_pos.mpr h
  omega

/-! ## SHA-256 (FIPS 180-4), as the `sha2` crate computes it -/

/-- The SHA-256 round constants. -/
def sha256K : List Nat :=
  [1116352408, 1899447441, 3049323471, 3921009573, 961987163, 1508970993,
   2453635748, 2870763221, 3624381080, 310598401, 607225278, 1426881987,
   1925078388, 2162078206, 2614888103, 3248222580, 3835390401, 4022224774,
   264347078, 604807628, 770255983, 1249150122, 1555081692, 1996064986,
   2554220882, 2821834349, 2952996808, 3210313671, 3336571891, 3584528711,
   113926993, 338241895, 666307205, 773529912, 1294757372, 1396182291,
   1695183700, 1986661051, 2177026350, 2456956037, 2730485921, 2820302411,
   3259730800, 3345764771, 3516065817, 3600352804, 4094571909, 275423344,
   430227734, 506948616, 659060556, 883997877, 958139571, 1322822218,
   1537002063, 1747873779, 1955562222, 2024104815, 2227730452, 2361852424,
   2428436474, 2756734187, 3204031479, 3329325298]

/-- The SHA-256 initial hash state. -/
def sha256Init : List Nat :=
  [1779033703, 3144134277, 1013904242, 2773480762,
   1359893119, 2600822924, 528734635, 1541459225]

def smallSigma0 (x : Nat) : Nat := (rotr32 7 x ^^^ rotr32 18 x) ^^^ (x >>> 3)

def smallSigma1 (x : Nat) : Nat := (rotr32 17 x ^^^ rotr32 19 x) ^^^ (x >>> 10)

def bigSigma0 (x : Nat) : Nat := (rotr32 2 x ^^^ rotr32 13 x) ^^^ rotr32 22 x

def bigSigma1 (x : Nat) : Nat := (rotr32 6 x ^^^ rotr32 11 x) ^^^ rotr32 25 x

def chWord (x y z : Nat) : Nat := (x &&& y) ^^^ (not32 x &&& z)

def majWord (x y z : Nat) : Nat := ((x &&& y) ^^^ (x &&& z)) ^^^ (y &&& z)

/-- Extend the message schedule; `acc` holds the words produced so far, most
recent first.  Called with `n = 48` on the reversed first 16 words. -/
def sha256Schedule : Nat → List Nat → List Nat
  | 0, acc => acc.reverse
  | n + 1, acc =>
      let t := m32 (smallSigma1 (acc.getD 1 0) + acc.getD 6 0 +
                    smallSigma0 (acc.getD 14 0) + acc.getD 15 0)
      sha256Schedule n (t :: acc)

/-- One round of the SHA-256 compression function on the state
`[a, b, c, d, e, f, g, h]`; `kw` is the `(K, W)` pair for the round. -/
def sha256Round (st : List Nat) (kw : Nat × Nat) : List Nat :=
  match st with
  | [a, b, c, d, e, f, g, h] =>
      let t1 := m32 (h + bigSigma1 e + chWord e f g + kw.1 + kw.2)
      let t2 := m32 (bigSigma0 a + majWord a b c)
      [m32 (t1 + t2), a, b, c, m32 (d + t1), e, f, g]
  | other => other

/-- Process one padded 64-byte block. -/
def sha256Block (st : List Nat) (block : List Nat) : List Nat :=
  let w := sha256Schedule 48 (bytesToWordsBE block).reverse
  let st2 := (sha256K.zip w).foldl sha256Round st
  List.zipWith (fun x y => m32 (x + y)) st st2

/-- SHA-256 padding: `0x80`, zeros to 56 mod 64, then the bit length as 8
big-endian bytes. -/
def sha256Pad (msg : List Nat) : List Nat :=
  let zeros := (119 - msg.length % 64) % 64
  msg ++ 0x80 :: List.replicate zeros 0 ++
    (List.range 8).map (fun i => ((msg.length * 8) >>> (8 * (7 - i))) &&& 0xFF)

/-- SHA-256 of a byte string, as a list of 32 bytes. -/
def sha256 (msg : List Nat) : List Nat :=
  ((chunks64 (sha256Pad msg)).foldl sha256Block sha256Init).flatMap word32BytesBE

/-! ## MD5 (RFC 1321), as the `md5` crate computes it -/

/-- The MD5 per-round addition constants. -/
def md5K : List Nat :=
  [3614090360, 3905402710, 606105819, 3250441966, 4118548399, 1200080426,
   2821735955, 4249261313, 1770035416, 2336552879, 4294925233, 2304563134,
   1804603682, 4254626195, 2792965006, 1236535329, 4129170786, 3225465664,
   643717713, 3921069994, 3593408605, 38016083, 3634488961, 3889429448,
   568446438, 3275163606, 4107603335, 1163531501, 2850285829, 4243563512,
   1735328473, 2368359562, 4294588738, 2272392833, 1839030562, 4259657740,
   2763975236, 1272893353, 4139469664, 3200236656, 681279174, 3936430074,
   3572445317, 76029189, 3654602809, 3873151461, 530742520, 3299628645,
   4096336452, 1126891415, 2878612391, 4237533241, 1700485571, 2399980690,
   4293915773, 2240044497, 1873313359, 4264355552, 2734768916, 1309151649,
   4149444226, 3174756917, 718787259, 3951481745]

/-- The MD5 per-round left-rotation amounts. -/
def md5S : List Nat :=
  [7, 12, 17, 22, 7, 12, 17, 22, 7, 12, 17, 22, 7, 12, 17, 22,
   5, 9, 14, 20, 5, 9, 14, 20, 5, 9, 14, 20, 5, 9, 14, 20,
   4, 11, 16, 23, 4, 11, 16, 23, 4, 11, 16, 23, 4, 11, 16, 23,
   6, 10, 15, 21, 6, 10, 15, 21, 6, 10, 15, 21, 6, 10, 15, 21]

/-- The MD5 initial state. -/
def md5Init : List Nat :=
  [1732584193, 4023233417, 2562383102, 271733878]

/-- The MD5 round function for round `i` on words `b`, `c`, `d`. -/
def md5F (i b c d : Nat) : Nat :=
  if i < 16 then (b &&& c) ||| (not32 b &&& d)
  else if i < 32 then (d &&& b) ||| (not32 d &&& c)
  else if i < 48 then (b ^^^ c) ^^^ d
  else c ^^^ (b ||| not32 d)

/-- The MD5 message-word index for round `i`. -/
def md5G (i : Nat) : Nat :=
  if i < 16 then i
  else if i < 32 then (5 * i + 1) % 16
  else if i < 48 then (3 * i + 5) % 16
  else (7 * i) % 16

/-- One MD5 round on the state `[a, b, c, d]`; `m` is the 16-word block. -/
def md5Step (m : List Nat) (st : List Nat) (i : Nat) : List Nat :=
  match st with
  | [a, b, c, d] =>
      let f := m32 (md5F i b c d + a + md5K.getD i 0 + m.getD (md5G i) 0)
      [d, m32 (b + rotl32 (md5S.getD i 0) f), b, c]
  | other => other

/-- Process one padded 64-byte block. -/
def md5Block (st : List Nat) (block : List Nat) : List Nat :=
  let m := bytesToWordsLE block
  let st2 := (List.range 64).foldl (md5Step m) st
  List.zipWith (fun x y => m32 (x + y)) st st2

/-- MD5 padding: `0x80`, zeros to 56 mod 64, then the bit length as 8
little-endian bytes. -/
def md5Pad (msg : List Nat) : List Nat :=
  let zeros := (119 - msg.length % 64) % 64
  msg ++ 0x80 :: List.replicate zeros 0 ++
    (List.range 8).map (fun i => ((msg.length * 8) >>> (8 * i)) &&& 0xFF)

/-- MD5 of a byte string, as a list of 16 bytes. -/
def md5 (msg : List Nat) : List Nat :=
  ((chunks64 (md5Pad msg)).foldl md5Block md5Init).flatMap word32BytesLE

/-! ## HMAC-SHA256 (RFC 2104), as `hmac::Hmac<Sha256>` computes it -/

/-- HMAC-SHA256 with block size 64: keys longer than a block are hashed
first, the key is zero-padded, and the inner/outer pads are XORed in. -/
def hmacSha256 (key msg : List Nat) : List Nat :=
  let k0 := if 64 < key.length then sha256 key else key
  let k := k0 ++ List.replicate (64 - k0.length) 0
  sha256 (k.map (fun b => b ^^^ 0x5c) ++ sha256 (k.map (fun b => b ^^^ 0x36) ++ msg))

/-! ## Errors (`src/errors.rs`), reduced to the variants the core raises -/

/-- `PusherError`: each modelled variant carries its message string. -/
inductive PusherError where
  | validation (message : Str)
  | encryption (message : Str)
  | config (message : Str)
  | webhook (message : Str)
deriving DecidableEq

/-- `crate::Result<T> = Result<T, PusherError>`. -/
abbrev PResult (α : Type) := Except PusherError α

/-- Whether a result failed with `PusherError::Validation`. -/
def isValidationError {α : Type} : PResult α → Bool
  | .error (.validation _) => true
  | _ => false

/-- Whether a result failed with `PusherError::Encryption`. -/
def isEncryptionError {α : Type} : PResult α → Bool
  | .error (.encryption _) => true
  | _ => false

/-! ## Token (`src/token.rs`) and `secure_compare` (`src/util.rs`) -/

/-- `Token { key, secret }`. -/
structure Token where
  key : Str
  secret : Str
deriving DecidableEq

/-- `Token::sign`: lower-case hex of the HMAC-SHA256 of the data under the
secret, both taken as UTF-8 bytes (`format!("{:x}", ...)` on the MAC). -/
def Token.sign (t : Token) (data : Str) : Str :=
  hexEncode (hmacSha256 (utf8Bytes t.secret) (utf8Bytes data))

/-- The `subtle` crate's `ct_eq` on two byte slices of equal length: a
non-short-circuiting fold of per-byte equality. -/
def ctEq : List Nat → List Nat → Bool
  | [], [] => true
  | a :: as, b :: bs => (a == b) && ctEq as bs
  | _, _ => false

/-- `util::secure_compare`: false on byte-length mismatch, else `ct_eq` over
the UTF-8 bytes. -/
def secureCompare (a b : Str) : Bool :=
  if byteLen a ≠ byteLen b then false
  else ctEq (utf8Bytes a) (utf8Bytes b)

/-- `Token::verify`: recompute the expected signature and `secure_compare`. -/
def Token.verify (t : Token) (data signature : Str) : Bool :=
  secureCompare (t.sign data) signature

/-! ## Channels (`src/channel.rs`) -/

/-- The four channel kinds, each wrapping the validated name with its type
prefix stripped (the `Channel` enum over `PublicChannel` etc.). -/
inductive Channel where
  | public (name : Str)
  | private_ (name : Str)
  | presence (name : Str)
  | encrypted (name : Str)
deriving DecidableEq

/-- `ChannelType`. -/
inductive ChannelType where
  | public
  | private_
  | presence
  | encrypted
deriving DecidableEq

/-- The character class `[A-Za-z0-9_\-=@,.;]` of `CHANNEL_NAME_PATTERN`
(also `USER_ID_PATTERN` in `src/util.rs`), written on code points:
`A`-`Z` is 65-90, `a`-`z` is 97-122, `0`-`9` is 48-57, and `_ - = @ , . ;`
are 95, 45, 61, 64, 44, 46, 59. -/
def inNameClass (c : Char) : Bool :=
  (65 ≤ c.toNat && c.toNat ≤ 90) || (97 ≤ c.toNat && c.toNat ≤ 122) ||
  (48 ≤ c.toNat && c.toNat ≤ 57) || c.toNat == 95 || c.toNat == 45 ||
  c.toNat == 61 || c.toNat == 64 || c.toNat == 44 || c.toNat == 46 || c.toNat == 59

/-- `validate_channel_name`: non-empty, at most 200 bytes, every character in
the channel character class. -/
def validateChannelName (name : Str) : PResult Unit :=
  if name = [] then
    .error (.validation (str "Channel name cannot be empty"))
  else if 200 < byteLen name then
    .error (.validation (str "Channel name too long"))
  else if ¬ name.all inNameClass then
    .error (.validation (str "Invalid channel name"))
  else
    .ok ()

/-- `Channel::from_string`: longest-prefix-first detection, then validation
of the stripped name (`strip_prefix` + `ChannelName::new`). -/
def Channel.fromString (s : Str) : PResult Channel :=
  if (str "private-encrypted-").isPrefixOf s then
    let name := s.drop (str "private-encrypted-").length
    (validateChannelName name).map (fun _ => .encrypted name)
  else if (str "presence-").isPrefixOf s then
    let name := s.drop (str "presence-").length
    (validateChannelName name).map (fun _ => .presence name)
  else if (str "private-").isPrefixOf s then
    let name := s.drop (str "private-").length
    (validateChannelName name).map (fun _ => .private_ name)
  else
    (validateChannelName s).map (fun _ => .public s)

/-- `Channel::full_name`: re-attach the type prefix. -/
def Channel.fullName : Channel → Str
  | .public name => name
  | .private_ name => str "private-" ++ name
  | .presence name => str "presence-" ++ name
  | .encrypted name => str "private-encrypted-" ++ name

/-- `Channel::channel_type`. -/
def Channel.channelType : Channel → ChannelType
  | .public _ => .public
  | .private_ _ => .private_
  | .presence _ => .presence
  | .encrypted _ => .encrypted

/-- The stripped name inside a channel value. -/
def Channel.name : Channel → Str
  | .public name => name
  | .private_ name => name
  | .presence name => name
  | .encrypted name => name

/-- `Channel::is_encrypted`. -/
def Channel.isEncrypted : Channel → Bool
  | .encrypted _ => true
  | _ => false

/-! ## Validators (`src/util.rs`) -/

/-- `util::is_encrypted_channel`: prefix test on the raw name. -/
def isEncryptedChannelName (channel : Str) : Bool :=
  (str "private-encrypted-").isPrefixOf channel

/-- Modelled from the spec: the `regex` crate’s `\d`, which is
Unicode-aware and matches the Unicode decimal-digit class `Nd`.  Each entry
is the first code point of a run of consecutive decimal digits with the run
length (Unicode 15.0, the table the crate bundles): the ASCII digits, one
decade per script, and the 50 mathematical alphanumeric digits at 0x1D7CE. -/
def ndRanges : List (Nat × Nat) :=
  [(48, 10), (1632, 10), (1776, 10), (1984, 10), (2406, 10),
   (2534, 10), (2662, 10), (2790, 10), (2918, 10), (3046, 10),
   (3174, 10), (3302, 10), (3430, 10), (3558, 10), (3664, 10),
   (3792, 10), (3872, 10), (4160, 10), (4240, 10), (6112, 10),
   (6160, 10), (6470, 10), (6608, 10), (6784, 10), (6800, 10),
   (6992, 10), (7088, 10), (7232, 10), (7248, 10), (42528, 10),
   (43216, 10), (43264, 10), (43472, 10), (43504, 10), (43600, 10),
   (44016, 10), (65296, 10), (66720, 10), (68912, 10), (69734, 10),
   (69872, 10), (69942, 10), (70096, 10), (70384, 10), (70736, 10),
   (70864, 10), (71248, 10), (71360, 10), (71472, 10), (71904, 10),
   (72016, 10), (72784, 10), (73040, 10), (73120, 10), (73552, 10),
   (92768, 10), (92864, 10), (93008, 10), (120782, 50), (123200, 10),
   (123632, 10), (124144, 10), (125264, 10), (130032, 10)]

/-- A character the regex crate’s `\d` matches: member of some `Nd` run. -/
def isUnicodeDigit (c : Char) : Bool :=
  ndRanges.any (fun r => r.1 ≤ c.toNat && c.toNat < r.1 + r.2)

/-- The anchored regex `^\d+\.\d+$` of `SOCKET_ID_PATTERN`: one or more
decimal digits, a dot, one or more decimal digits, nothing else.  `\d` is
the Unicode class, so non-ASCII digits match too. -/
def socketIdMatches (s : Str) : Bool :=
  let a := s.takeWhile isUnicodeDigit
  match s.dropWhile isUnicodeDigit with
  | '.' :: b => !a.isEmpty && !b.isEmpty && b.all isUnicodeDigit
  | _ => false

/-- `util::validate_socket_id`. -/
def validateSocketId (socketId : Str) : PResult Unit :=
  if ¬ socketIdMatches socketId then
    .error (.validation (str "Invalid socket id"))
  else
    .ok ()

/-- `util::validate_user_id`: non-empty, at most 200 bytes, every character
in the `USER_ID_PATTERN` class. -/
def validateUserId (userId : Str) : PResult Unit :=
  if userId = [] then
    .error (.validation (str "User ID cannot be empty"))
  else if 200 < byteLen userId then
    .error (.validation (str "User ID too long"))
  else if ¬ userId.all inNameClass then
    .error (.validation (str "Invalid user ID"))
  else
    .ok ()

/-! ## A minimal JSON model

Modelled from the spec: the repository hands JSON work to the external
`serde_json` / `sonic_rs` crates (not part of `src/`); the spec's webhook
input contract is a JSON object with an integer `time_ms` and an `events`
array of string-to-string maps. -/

/-- An opening brace character (written by code point to keep the source free
of literal braces). -/
def lbrace : Char := Char.ofNat 0x7B

/-- A closing brace character. -/
def rbrace : Char := Char.ofNat 0x7D

/-- A JSON value (numbers restricted to integers, which is all the webhook
schema consumes: `time_ms : i64`). -/
inductive Json where
  | null
  | bool (b : Bool)
  | num (n : Int)
  | strV (s : Str)
  | arr (items : List Json)
  | obj (fields : List (Str × Json))

/-- Field lookup on a JSON object (`Value::get`). -/
def Json.getField : Json → Str → Option Json
  | .obj fields, k => (fields.find? (fun p => p.1 == k)).map Prod.snd
  | _, _ => none

/-- `Value::as_str`. -/
def Json.asStr : Json → Option Str
  | .strV s => some s
  | _ => none

/-- JSON string escaping for one character. -/
def jsonEscapeChar (c : Char) : Str :=
  if c = '"' then str "\\\""
  else if c = '\\' then str "\\\\"
  else if c = '\n' then str "\\n"
  else if c = '\r' then str "\\r"
  else if c = '\t' then str "\\t"
  else if c.toNat < 0x20 then
    str "\\u00" ++ [hexDigitChar ((c.toNat >>> 4) &&& 0xF), hexDigitChar (c.toNat &&& 0xF)]
  else [c]

mutual

/-- Serialize a JSON value (`serde_json::to_string`). -/
def Json.render : Json → Str
  | .null => str "null"
  | .bool true => str "true"
  | .bool false => str "false"
  | .num n => (toString n).data
  | .strV s => '"' :: s.flatMap jsonEscapeChar ++ ['"']
  | .arr items => '[' :: List.intercalate (str ",") (Json.renderList items) ++ [']']
  | .obj fields => lbrace :: List.intercalate (str ",") (Json.renderFields fields) ++ [rbrace]

def Json.renderList : List Json → List Str
  | [] => []
  | v :: rest => Json.render v :: Json.renderList rest

def Json.renderFields : List (Str × Json) → List Str
  | [] => []
  | (k, v) :: rest => ('"' :: k.flatMap jsonEscapeChar ++ str "\":" ++ Json.render v) :: Json.renderFields rest

end

/-- Skip JSON whitespace. -/
def skipWs : Str → Str
  | c :: rest => if c = ' ' ∨ c = '\n' ∨ c = '\t' ∨ c = '\r' then skipWs rest else c :: rest
  | [] => []

/-- The value of one hex digit. -/
def hexDigitVal (c : Char) : Option Nat :=
  if '0' ≤ c ∧ c ≤ '9' then some (c.toNat - '0'.toNat)
  else if 'a' ≤ c ∧ c ≤ 'f' then some (c.toNat - 'a'.toNat + 10)
  else if 'A' ≤ c ∧ c ≤ 'F' then some (c.toNat - 'A'.toNat + 10)
  else none

/-- Parse the body of a JSON string after its opening quote; returns the
decoded characters and the input left after the closing quote. -/
def parseJsonString : Nat → Str → Option (Str × Str)
  | 0, _ => none
  | _ + 1, [] => none
  | _ + 1, '"' :: rest => some ([], rest)
  | fuel + 1, '\\' :: e :: rest =>
      match e with
      | '"' => (parseJsonString fuel rest).map (fun p => ('"' :: p.1, p.2))
      | '\\' => (parseJsonString fuel rest).map (fun p => ('\\' :: p.1, p.2))
      | '/' => (parseJsonString fuel rest).map (fun p => ('/' :: p.1, p.2))
      | 'b' => (parseJsonString fuel rest).map (fun p => (Char.ofNat 8 :: p.1, p.2))
      | 'f' => (parseJsonString fuel rest).map (fun p => (Char.ofNat 12 :: p.1, p.2))
      | 'n' => (parseJsonString fuel rest).map (fun p => ('\n' :: p.1, p.2))
      | 'r' => (parseJsonString fuel rest).map (fun p => ('\r' :: p.1, p.2))
      | 't' => (parseJsonString fuel rest).map (fun p => ('\t' :: p.1, p.2))
      | 'u' =>
          match rest with
          | a :: b :: c :: d :: rest2 =>
              match hexDigitVal a, hexDigitVal b, hexDigitVal c, hexDigitVal d with
              | some ha, some hb, some hc, some hd =>
                  let n := ((ha <<< 12) ||| (hb <<< 8)) ||| ((hc <<< 4) ||| hd)
                  (parseJsonString fuel rest2).map (fun p => (Char.ofNat n :: p.1, p.2))
              | _, _, _, _ => none
          | _ => none
      | _ => none
  | fuel + 1, c :: rest => (parseJsonString fuel rest).map (fun p => (c :: p.1, p.2))

/-- Parse a run of decimal digits as a number. -/
def parseDigits (s : Str) : Option (Nat × Str) :=
  let ds := s.takeWhile Char.isDigit
  if ds.isEmpty then none
  else some (ds.foldl (fun acc c => 10 * acc + (c.toNat - '0'.toNat)) 0, s.dropWhile Char.isDigit)

mutual

/-- Parse one JSON value; `fuel` bounds the recursion depth and consumed
input. -/
def parseJsonValue : Nat → Str → Option (Json × Str)
  | 0, _ => none
  | fuel + 1, s =>
      match skipWs s with
      | 'n' :: 'u' :: 'l' :: 'l' :: rest => some (.null, rest)
      | 't' :: 'r' :: 'u' :: 'e' :: rest => some (.bool true, rest)
      | 'f' :: 'a' :: 'l' :: 's' :: 'e' :: rest => some (.bool false, rest)
      | '"' :: rest => (parseJsonString fuel rest).map (fun p => (.strV p.1, p.2))
      | '[' :: rest =>
          (match skipWs rest with
           | ']' :: rest2 => some (.arr [], rest2)
           | rest2 => (parseJsonItems fuel rest2).map (fun p => (.arr p.1, p.2)))
      | '-' :: rest => (parseDigits rest).map (fun p => (.num (-(p.1 : Int)), p.2))
      | c :: rest =>
          if c = lbrace then
            match skipWs rest with
            | c2 :: rest2 =>
                if c2 = rbrace then some (.obj [], rest2)
                else (parseJsonFields fuel (c2 :: rest2)).map (fun p => (.obj p.1, p.2))
            | [] => none
          else if c.isDigit then
            (parseDigits (c :: rest)).map (fun p => (.num (p.1 : Int), p.2))
          else none
      | [] => none

/-- Parse comma-separated array items up to the closing bracket. -/
def parseJsonItems : Nat → Str → Option (List Json × Str)
  | 0, _ => none
  | fuel + 1, s => do
      let (v, rest) ← parseJsonValue fuel s
      match skipWs rest with
      | ',' :: rest2 => (parseJsonItems fuel rest2).map (fun p => (v :: p.1, p.2))
      | ']' :: rest2 => some ([v], rest2)
      | _ => none

/-- Parse comma-separated object fields up to the closing brace. -/
def parseJsonFields : Nat → Str → Option (List (Str × Json) × Str)
  | 0, _ => none
  | fuel + 1, s =>
      match skipWs s with
      | '"' :: rest => do
          let (k, rest2) ← parseJsonString fuel rest
          match skipWs rest2 with
          | ':' :: rest3 => do
              let (v, rest4) ← parseJsonValue fuel rest3
              match skipWs rest4 with
              | ',' :: rest5 => (parseJsonFields fuel rest5).map (fun p => ((k, v) :: p.1, p.2))
              | c :: rest5 => if c = rbrace then some ([(k, v)], rest5) else none
              | [] => none
          | _ => none
      | _ => none

end

/-- Parse a whole JSON document (no trailing input allowed). -/
def parseJson (s : Str) : Option Json :=
  match parseJsonValue (4 * s.length + 16) s with
  | some (v, rest) => if skipWs rest = [] then some v else none
  | none => none

/-! ## The webhook data schema (`src/webhook.rs`) -/

/-- `WebhookData`: the timestamp in milliseconds and the raw event maps. -/
structure WebhookData where
  timeMs : Int
  events : List (List (Str × Str))

/-- Read a JSON object whose values are all strings (serde's
`HashMap<String, String>`). -/
def stringPairsOfJson : List (Str × Json) → Option (List (Str × Str))
  | [] => some []
  | (k, .strV v) :: rest => (stringPairsOfJson rest).map (fun l => (k, v) :: l)
  | _ => none

/-- Deserialize `WebhookData` from a parsed JSON value: an object with an
integer `time_ms` and an `events` array of string maps (extra fields are
ignored, as serde does by default). -/
def webhookDataOfJson : Json → Option WebhookData
  | .obj fields =>
      match (Json.obj fields).getField (str "time_ms"),
            (Json.obj fields).getField (str "events") with
      | some (.num n), some (.arr items) =>
          (items.mapM (fun (j : Json) => match j with | .obj f => stringPairsOfJson f | _ => none)).map
            (fun evs => { timeMs := n, events := evs })
      | _, _ => none
  | _ => none

/-- Modelled from the spec: `sonic_rs::from_str::<WebhookData>`, the external
crate's parse of the webhook body against the schema of §6 of the spec. -/
def sonicFromStr (body : Str) : Option WebhookData :=
  (parseJson body).bind webhookDataOfJson

/-! ## A `BTreeMap<String, String>` as a sorted association list

Rust's `Ord` on `String` is lexicographic on the UTF-8 bytes; `insert`
replaces the value of an equal key (keeping the stored key) and otherwise
places the new entry at its sorted position. -/

/-- Three-way byte-lexicographic comparison. -/
def compareBytes : List Nat → List Nat → Ordering
  | [], [] => .eq
  | [], _ :: _ => .lt
  | _ :: _, [] => .gt
  | a :: as, b :: bs =>
      match compare a b with
      | .eq => compareBytes as bs
      | o => o

/-- Rust's `String` order: byte-lexicographic on the UTF-8 encodings. -/
def keyLt (a b : Str) : Prop := compareBytes (utf8Bytes a) (utf8Bytes b) = .lt

instance (a b : Str) : Decidable (keyLt a b) := by
  unfold keyLt; infer_instance

/-- `BTreeMap::insert` on a list sorted by `keyLt`. -/
def btInsert (k v : Str) : List (Str × Str) → List (Str × Str)
  | [] => [(k, v)]
  | (k2, v2) :: rest =>
      match compareBytes (utf8Bytes k) (utf8Bytes k2) with
      | .lt => (k, v) :: (k2, v2) :: rest
      | .eq => (k2, v) :: rest
      | .gt => (k2, v2) :: btInsert k v rest

/-- `BTreeMap::get`. -/
def btGet (m : List (Str × Str)) (k : Str) : Option Str :=
  (m.find? (fun p => p.1 == k)).map Prod.snd

/-! ## Request canonicalization (`src/util.rs`, `src/pusher.rs`) -/

/-- `util::to_ordered_array`: each map entry rendered as `key=value`. -/
def toOrderedArray (m : List (Str × Str)) : List Str :=
  m.map (fun p => p.1 ++ '=' :: p.2)

/-- `util::get_md5`: lower-case hex MD5 of the body bytes. -/
def getMd5 (body : Str) : Str := hexEncode (md5 (utf8Bytes body))

/-- Rust `u64::to_string` of the timestamp. -/
def natToStr (n : Nat) : Str := (Nat.repr n).data

/-- Rust `str::to_uppercase` (the methods signed here are ASCII). -/
def toUpperStr (s : Str) : Str := s.map Char.toUpper

/-- The `query_params` map of `create_signed_query_string`: `auth_key`,
`auth_timestamp`, `auth_version`, `body_md5` when a body is present, then
every caller parameter, accumulated by `BTreeMap::insert`.  The timestamp
(read from the system clock in the source) is an explicit argument. -/
def collectQueryParams (token : Token) (timestamp : Nat) (body : Option Str)
    (params : List (Str × Str)) : List (Str × Str) :=
  let qp := btInsert (str "auth_version") (str "1.0")
              (btInsert (str "auth_timestamp") (natToStr timestamp)
                (btInsert (str "auth_key") token.key []))
  let qp := match body with
    | some b => btInsert (str "body_md5") (getMd5 b) qp
    | none => qp
  params.foldl (fun m p => btInsert p.1 p.2 m) qp

/-- `create_signed_query_string` (`src/pusher.rs`): render the sorted map,
sign `METHOD\nPATH\nquery`, and append `auth_signature`. -/
def createSignedQueryString (token : Token) (method path : Str) (body : Option Str)
    (params : List (Str × Str)) (timestamp : Nat) : Str :=
  let queryString :=
    List.intercalate (str "&") (toOrderedArray (collectQueryParams token timestamp body params))
  let signData := toUpperStr method ++ '\n' :: path ++ '\n' :: queryString
  queryString ++ str "&auth_signature=" ++ token.sign signData

/-! ## Configuration (`src/config.rs`) and the pieces of `Pusher` the claims
touch (`src/pusher.rs`) -/

/-- `Config`, reduced to the fields the core signing/crypto paths read. -/
structure Config where
  appId : Str
  token : Token
  encryptionMasterKey : Option (List Nat)
deriving DecidableEq

/-- `Config::validate`. -/
def Config.validate (cfg : Config) : PResult Unit :=
  if cfg.appId = [] then
    .error (.config (str "App ID cannot be empty"))
  else if cfg.token.key = [] then
    .error (.config (str "App key cannot be empty"))
  else
    match cfg.encryptionMasterKey with
    | some k => if k.length ≠ 32 then .error (.config (str "Encryption key must be 32 bytes")) else .ok ()
    | none => .ok ()

/-- `Pusher::channel_shared_secret`: SHA-256 over the channel name bytes
followed by the master-key bytes; `EncryptionError` when no master key is
configured. -/
def channelSharedSecret (cfg : Config) (channel : Str) : PResult (List Nat) :=
  match cfg.encryptionMasterKey with
  | none => .error (.encryption (str "Encryption master key not set"))
  | some masterKey => .ok (sha256 (utf8Bytes channel ++ masterKey))

/-! ## Channel and user authorization (`src/auth.rs`) -/

/-- `SocketAuth`. -/
structure SocketAuth where
  auth : Str
  channelData : Option Str
  sharedSecret : Option Str
deriving DecidableEq

/-- `UserAuth`. -/
structure UserAuth where
  auth : Str
  userData : Str
deriving DecidableEq

/-- `auth::get_socket_signature`.  `data` is the serialized JSON the source
obtains from `serde_json::to_string` of the caller's value.  The `encryption`
cargo feature is modelled as enabled (the build the spec describes). -/
def getSocketSignature (cfg : Config) (token : Token) (channel socketId : Str)
    (data : Option Str) : PResult SocketAuth :=
  let signatureData := [socketId, channel] ++ (match data with | some d => [d] | none => [])
  let authString := List.intercalate (str ":") signatureData
  let auth := token.key ++ ':' :: token.sign authString
  if isEncryptedChannelName channel then
    match cfg.encryptionMasterKey with
    | none => .error (.encryption (str "Cannot generate shared secret because encryptionMasterKey is not set"))
    | some _ =>
        match channelSharedSecret cfg channel with
        | .error e => .error e
        | .ok sharedSecret =>
            .ok { auth, channelData := data, sharedSecret := some (base64Encode sharedSecret) }
  else
    .ok { auth, channelData := data, sharedSecret := none }

/-- `auth::get_socket_signature_for_user`. -/
def getSocketSignatureForUser (token : Token) (socketId : Str) (userData : Json) : PResult UserAuth :=
  let serializedUserData := Json.render userData
  let signatureString := socketId ++ str "::user::" ++ serializedUserData
  .ok { auth := token.key ++ ':' :: token.sign signatureString, userData := serializedUserData }

/-- `Pusher::authorize_channel`: socket-id validation, then the socket
signature over the channel's full name. -/
def authorizeChannel (cfg : Config) (socketId : Str) (channel : Channel)
    (data : Option Str) : PResult SocketAuth :=
  match validateSocketId socketId with
  | .error e => .error e
  | .ok _ => getSocketSignature cfg cfg.token channel.fullName socketId data

/-- `Pusher::authenticate_user`: socket-id validation, then the `id` field
checks, then the user signature. -/
def authenticateUser (cfg : Config) (socketId : Str) (userData : Json) : PResult UserAuth :=
  match validateSocketId socketId with
  | .error e => .error e
  | .ok _ =>
      match userData.getField (str "id") with
      | some idJson =>
          match idJson.asStr with
          | some idStr =>
              match validateUserId idStr with
              | .error e => .error e
              | .ok _ => getSocketSignatureForUser cfg.token socketId userData
          | none => .error (.validation (str "User data ID must be a string"))
      | none => .error (.validation (str "User data must contain an id field"))

/-! ## Webhooks (`src/webhook.rs`) -/

/-- Rust `str::to_lowercase` on header names (ASCII in practice). -/
def lowerStr (s : Str) : Str := s.map Char.toLower

/-- The `normalized_headers` map of `Webhook::new`: every header key
lowercased and collected into a `BTreeMap` (later entries overwrite). -/
def normalizeHeaders (headers : List (Str × Str)) : List (Str × Str) :=
  headers.foldl (fun m p => btInsert (lowerStr p.1) p.2 m) []

/-- `Webhook::validate_content_type`: present and starting with
`application/json`. -/
def validateContentType : Option Str → Bool
  | some ct => (str "application/json").isPrefixOf ct
  | none => false

/-- `Webhook`. -/
structure Webhook where
  token : Token
  key : Option Str
  signature : Option Str
  contentType : Option Str
  body : Str
  data : Option WebhookData

/-- `Webhook::new`: header extraction (case-insensitive), and the body parse
attempted only under a valid content type. -/
def Webhook.new (token : Token) (headers : List (Str × Str)) (body : Str) : Webhook :=
  let normalized := normalizeHeaders headers
  let key := btGet normalized (str "x-pusher-key")
  let signature := btGet normalized (str "x-pusher-signature")
  let contentType := btGet normalized (str "content-type")
  let data := if validateContentType contentType then sonicFromStr body else none
  { token, key, signature, contentType, body, data }

/-- `Webhook::is_body_valid`. -/
def Webhook.isBodyValid (w : Webhook) : Bool := w.data.isSome

/-- `Webhook::is_valid`: body validity first, then each candidate token (the
webhook's own, then any extras) checked against the header key and the
signature over the raw body. -/
def Webhook.isValid (w : Webhook) (extraTokens : Option (List Token)) : Bool :=
  if ¬ w.isBodyValid then false
  else
    let tokensToCheck := match extraTokens with
      | some extra => w.token :: extra
      | none => [w.token]
    tokensToCheck.any (fun t =>
      match w.key, w.signature with
      | some key, some signature => key == t.key && t.verify w.body signature
      | _, _ => false)

/-! ## Event triggering (`src/events.rs`) -/

/-- `TriggerParams`. -/
structure TriggerParams where
  socketId : Option Str
  info : Option Str
deriving DecidableEq

/-- The `Event` payload serialized into the POST body. -/
structure Event where
  name : Str
  data : Str
  channels : List Str
  socketId : Option Str
  info : Option Str
deriving DecidableEq

/-- The outcome of a successful `trigger`: the request handed to the HTTP
transport. -/
structure PostRequest where
  path : Str
  event : Event
deriving DecidableEq

/-- `events::encrypt`: master-key check, per-channel secret derivation, then
the sodiumoxide secretbox seal (the external primitive is the `sealFn`
argument; the random nonce is the `nonce` argument). -/
def encryptPayload (sealFn : List Nat → List Nat → List Nat → List Nat) (cfg : Config)
    (channel : Str) (data : Str) (nonce : List Nat) : PResult Str :=
  match cfg.encryptionMasterKey with
  | none => .error (.encryption (str "Set encryptionMasterKey before triggering events on encrypted channels"))
  | some _ =>
      match channelSharedSecret cfg channel with
      | .error e => .error e
      | .ok sharedSecret =>
          .ok (Json.render (Json.obj
            [(str "nonce", .strV (base64Encode nonce)),
             (str "ciphertext", .strV (base64Encode (sealFn (utf8Bytes data) nonce sharedSecret)))]))

/-- `events::trigger`: the event-name length gate, then either the
single-encrypted-channel path (which encrypts) or the plain path, which
rejects any encrypted channel in a multi-channel list. -/
def trigger (sealFn : List Nat → List Nat → List Nat → List Nat) (cfg : Config)
    (channels : List Channel) (eventName : Str) (data : Str)
    (params : Option TriggerParams) (nonce : List Nat) : PResult PostRequest :=
  if 200 < byteLen eventName then
    .error (.validation (str "Event name too long"))
  else
    let channelStrings := channels.map Channel.fullName
    if channels.length = 1 ∧ (channels.headD (.public [])).isEncrypted then
      match encryptPayload sealFn cfg (channelStrings.headD []) data nonce with
      | .error e => .error e
      | .ok encryptedData =>
          .ok { path := str "/events",
                event := { name := eventName, data := encryptedData, channels := channelStrings,
                           socketId := params.bind TriggerParams.socketId,
                           info := params.bind TriggerParams.info } }
    else
      if channels.any Channel.isEncrypted then
        .error (.validation (str "You cannot trigger to multiple channels when using encrypted channels"))
      else
        .ok { path := str "/events",
              event := { name := eventName, data := data, channels := channelStrings,
                         socketId := params.bind TriggerParams.socketId,
                         info := params.bind TriggerParams.info } }

/-! ## Spec-side definitions for the channel-classification claims

These follow the claim's wording — longest-prefix-first detection and the
name rule stated in characters — to be compared with `Channel.fromString`,
which is taken from the source. -/

/-- Spec wording: `private-encrypted-` → Encrypted, else `presence-` →
Presence, else `private-` → Private, else Public. -/
def specDetectKind (s : Str) : ChannelType :=
  if (str "private-encrypted-").isPrefixOf s then .encrypted
  else if (str "presence-").isPrefixOf s then .presence
  else if (str "private-").isPrefixOf s then .private_
  else .public

/-- Spec wording: the name remaining after stripping the detected prefix. -/
def specStripped (s : Str) : Str :=
  if (str "private-encrypted-").isPrefixOf s then s.drop (str "private-encrypted-").length
  else if (str "presence-").isPrefixOf s then s.drop (str "presence-").length
  else if (str "private-").isPrefixOf s then s.drop (str "private-").length
  else s

/-- Spec wording: the stripped name is non-empty, at most 200 characters,
and within the channel character class. -/
def specNameOk (s : Str) : Bool :=
  !s.isEmpty && decide (s.length ≤ 200) && s.all inNameClass

/-! # Supporting lemmas -/

theorem ctEq_iff (a b : List Nat) : ctEq a b = true ↔ a = b := by
  induction a generalizing b with
  | nil => cases b <;> simp [ctEq]
  | cons x xs ih => cases b <;> simp [ctEq, ih]

theorem secureCompare_iff (a b : Str) : secureCompare a b = true ↔ utf8Bytes a = utf8Bytes b := by
  unfold secureCompare byteLen
  split
  · rename_i h
    simp only [Bool.false_eq_true, false_iff]
    intro he
    exact h (by rw [he])
  · exact ctEq_iff _ _

theorem sha256Round_length (st : List Nat) (kw : Nat × Nat) :
    (sha256Round st kw).length = st.length := by
  unfold sha256Round
  split <;> simp_all

theorem foldl_sha256Round_length (l : List (Nat × Nat)) (st : List Nat) :
    (l.foldl sha256Round st).length = st.length := by
  induction l generalizing st with
  | nil => rfl
  | cons x xs ih => rw [List.foldl_cons, ih, sha256Round_length]

theorem sha256Block_length (st block : List Nat) (h : st.length = 8) :
    (sha256Block st block).length = 8 := by
  unfold sha256Block
  rw [List.length_zipWith, foldl_sha256Round_length, h]
  simp

theorem foldl_sha256Block_length (chs : List (List Nat)) (st : List Nat) (h : st.length = 8) :
    (chs.foldl sha256Block st).length = 8 := by
  induction chs generalizing st with
  | nil => exact h
  | cons c cs ih => exact ih _ (sha256Block_length _ _ h)

theorem length_flatMap_word32BE (l : List Nat) : (l.flatMap word32BytesBE).length = 4 * l.length := by
  induction l with
  | nil => rfl
  | cons x xs ih => simp [List.flatMap_cons, word32BytesBE, ih]; omega

theorem sha256_length (msg : List Nat) : (sha256 msg).length = 32 := by
  unfold sha256
  rw [length_flatMap_word32BE, foldl_sha256Block_length _ _ (by rfl)]

theorem hmacSha256_length (key msg : List Nat) : (hmacSha256 key msg).length = 32 := by
  unfold hmacSha256
  exact sha256_length _

theorem hexEncode_length (bs : List Nat) : (hexEncode bs).length = 2 * bs.length := by
  induction bs with
  | nil => rfl
  | cons x xs ih => simp [hexEncode, List.flatMap_cons] at ih ⊢; omega

theorem sign_length (t : Token) (data : Str) : (t.sign data).length = 64 := by
  unfold Token.sign
  rw [hexEncode_length, hmacSha256_length]

theorem le_or_self (a b : Nat) : a ≤ a ||| b :=
  Nat.le_of_testBit fun i hi => by rw [Nat.testBit_or, hi, Bool.true_or]

theorem utf8EncodeChar_ascii (c : Char) (h : c.toNat < 0x80) : utf8EncodeChar c = [c.toNat] := by
  unfold utf8EncodeChar
  simp [h]

theorem utf8Bytes_ascii (s : Str) (h : ∀ c ∈ s, c.toNat < 0x80) :
    utf8Bytes s = s.map Char.toNat := by
  induction s with
  | nil => rfl
  | cons c cs ih =>
      rw [utf8Bytes, List.flatMap_cons, utf8EncodeChar_ascii c (h c (List.mem_cons_self c cs)),
        List.map_cons]
      exact congrArg _ (ih (fun x hx => h x (List.mem_cons_of_mem _ hx)))

theorem utf8EncodeChar_head_ge (c : Char) (h : 0x80 ≤ c.toNat) :
    ∃ b rest, utf8EncodeChar c = b :: rest ∧ 0x80 ≤ b := by
  by_cases h1 : c.toNat < 0x80
  · omega
  by_cases h2 : c.toNat < 0x800
  · have he : utf8EncodeChar c = [0xC0 ||| (c.toNat >>> 6), 0x80 ||| (c.toNat &&& 0x3F)] := by
      simp [utf8EncodeChar, h1, h2]
    exact ⟨_, _, he, le_trans (by omega) (le_or_self 0xC0 _)⟩
  by_cases h3 : c.toNat < 0x10000
  · have he : utf8EncodeChar c = [0xE0 ||| (c.toNat >>> 12), 0x80 ||| ((c.toNat >>> 6) &&& 0x3F),
        0x80 ||| (c.toNat &&& 0x3F)] := by
      simp [utf8EncodeChar, h1, h2, h3]
    exact ⟨_, _, he, le_trans (by omega) (le_or_self 0xE0 _)⟩
  · have he : utf8EncodeChar c = [0xF0 ||| (c.toNat >>> 18), 0x80 ||| ((c.toNat >>> 12) &&& 0x3F),
        0x80 ||| ((c.toNat >>> 6) &&& 0x3F), 0x80 ||| (c.toNat &&& 0x3F)] := by
      simp [utf8EncodeChar, h1, h2, h3]
    exact ⟨_, _, he, le_trans (by omega) (le_or_self 0xF0 _)⟩

theorem utf8Bytes_ascii_inj (a : Str) (bs : List Nat) (hb : ∀ x ∈ bs, x < 0x80)
    (he : utf8Bytes a = bs) : a.map Char.toNat = bs := by
  induction a generalizing bs with
  | nil => simpa [utf8Bytes] using he
  | cons c cs ih =>
      have hsplit : utf8EncodeChar c ++ utf8Bytes cs = bs := by
        simpa [utf8Bytes, List.flatMap_cons] using he
      by_cases hc : c.toNat < 0x80
      · rw [utf8EncodeChar_ascii c hc] at hsplit
        subst hsplit
        rw [List.map_cons, List.singleton_append]
        exact congrArg _ (ih _ (fun x hx => hb x (List.mem_cons_of_mem _ hx)) rfl)
      · exfalso
        obtain ⟨b, rest, hbr, hge⟩ := utf8EncodeChar_head_ge c (Nat.le_of_not_lt hc)
        rw [hbr] at hsplit
        have : b ∈ bs := by rw [← hsplit]; exact List.mem_cons_self _ _
        exact absurd (hb b this) (by omega)

theorem charToNat_injective : Function.Injective Char.toNat := by
  intro a b h
  exact Char.ext (by
    have : a.val.toNat = b.val.toNat := h
    exact UInt32.toNat.inj this)

theorem eq_of_utf8Bytes_eq_ascii (exp sig : Str) (hexp : ∀ c ∈ exp, c.toNat < 0x80)
    (h : utf8Bytes sig = utf8Bytes exp) : sig = exp := by
  have h1 : utf8Bytes exp = exp.map Char.toNat := utf8Bytes_ascii _ hexp
  have hb : ∀ x ∈ utf8Bytes exp, x < 0x80 := by
    rw [h1]
    intro x hx
    obtain ⟨c, hc, rfl⟩ := List.mem_map.mp hx
    exact hexp c hc
  have h2 : sig.map Char.toNat = utf8Bytes exp := utf8Bytes_ascii_inj sig _ hb h
  rw [h1] at h2
  exact List.map_injective_iff.mpr charToNat_injective h2

theorem hexDigitChar_ascii (n : Nat) : (hexDigitChar n).toNat < 0x80 := by
  unfold hexDigitChar
  by_cases h : n < 16
  · interval_cases n <;> decide
  · rw [List.getD_eq_default _ _ (by simpa [str] using Nat.le_of_not_lt h)]
    decide

theorem hexEncode_ascii (bs : List Nat) : ∀ c ∈ hexEncode bs, c.toNat < 0x80 := by
  intro c hc
  unfold hexEncode at hc
  rw [List.mem_flatMap] at hc
  obtain ⟨b, _, hm⟩ := hc
  simp only [List.mem_cons, List.not_mem_nil, or_false] at hm
  rcases hm with h | h <;> (rw [h]; exact hexDigitChar_ascii _)

theorem token_verify_iff_aux (t : Token) (data sg : Str) :
    t.verify data sg = true ↔ sg = t.sign data := by
  unfold Token.verify
  rw [secureCompare_iff]
  constructor
  · intro h
    exact eq_of_utf8Bytes_eq_ascii _ _ (by unfold Token.sign; exact hexEncode_ascii _) h.symm
  · rintro rfl
    rfl

theorem inNameClass_ascii (c : Char) (h : inNameClass c = true) : c.toNat < 0x80 := by
  simp only [inNameClass, Bool.or_eq_true, Bool.and_eq_true, decide_eq_true_eq,
    beq_iff_eq] at h
  omega

theorem byteLen_ascii (s : Str) (h : ∀ c ∈ s, c.toNat < 0x80) : byteLen s = s.length := by
  unfold byteLen
  rw [utf8Bytes_ascii s h, List.length_map]

theorem byteLen_of_class (s : Str) (h : s.all inNameClass = true) : byteLen s = s.length :=
  byteLen_ascii s (fun c hc => inNameClass_ascii c (List.all_eq_true.mp h c hc))

theorem validateChannelName_ok (name : Str) (h : specNameOk name = true) :
    validateChannelName name = .ok () := by
  simp only [specNameOk, Bool.and_eq_true, Bool.not_eq_true', List.isEmpty_eq_false,
    decide_eq_true_eq] at h
  obtain ⟨⟨h1, h2⟩, h3⟩ := h
  unfold validateChannelName
  rw [if_neg h1, if_neg (by rw [byteLen_of_class name h3]; omega), if_neg (by simp [h3])]

theorem validateChannelName_err (name : Str) (h : specNameOk name = false) :
    ∃ m, validateChannelName name = .error (.validation m) := by
  unfold validateChannelName
  by_cases h0 : name = []
  · exact ⟨_, by rw [if_pos h0]⟩
  rw [if_neg h0]
  by_cases hl : 200 < byteLen name
  · exact ⟨_, by rw [if_pos hl]⟩
  rw [if_neg hl]
  have hall : ¬ name.all inNameClass = true := by
    intro hall
    have hb := byteLen_of_class name hall
    have hok : specNameOk name = true := by
      unfold specNameOk
      rw [Bool.and_eq_true, Bool.and_eq_true]
      refine ⟨⟨?_, ?_⟩, hall⟩
      · simp only [Bool.not_eq_true', List.isEmpty_eq_false]
        exact h0
      · simp only [decide_eq_true_eq]
        omega
    rw [hok] at h
    simp at h
  rw [if_pos (by simpa using hall)]
  exact ⟨_, rfl⟩

theorem fromString_eq (s : Str) :
    Channel.fromString s =
      (validateChannelName (specStripped s)).map (fun _ =>
        match specDetectKind s with
        | .encrypted => Channel.encrypted (specStripped s)
        | .presence => Channel.presence (specStripped s)
        | .private_ => Channel.private_ (specStripped s)
        | .public => Channel.public (specStripped s)) := by
  unfold Channel.fromString specDetectKind specStripped
  by_cases h1 : (str "private-encrypted-").isPrefixOf s <;>
    by_cases h2 : (str "presence-").isPrefixOf s <;>
      by_cases h3 : (str "private-").isPrefixOf s <;>
        simp [h1, h2, h3]

/-! # The claims -/

/-- C3: `Token::verify(data, signature)` is true exactly when `signature` is
the lower-case hex HMAC-SHA256 that `Token::sign(data)` produces (so
`verify(data, sign(data))` always holds); the expected signature is 64 hex
characters, and any candidate of a different length is rejected. -/
theorem token_verify_iff (t : Token) (data sg : Str) :
    (t.verify data sg = true ↔ sg = t.sign data) ∧
    (t.sign data).length = 64 ∧
    (sg.length ≠ 64 → t.verify data sg = false) := by
  refine ⟨token_verify_iff_aux t data sg, sign_length t data, fun hlen => ?_⟩
  by_contra hv
  rw [Bool.not_eq_false] at hv
  rw [(token_verify_iff_aux t data sg).mp hv] at hlen
  exact hlen (sign_length t data)

set_option maxRecDepth 40000 in
/-- C4: `Channel::from_string` classifies longest-prefix-first
(`private-encrypted-` → Encrypted, else `presence-` → Presence, else
`private-` → Private, else Public), succeeds exactly when the name left
after stripping the detected prefix is non-empty, at most 200 characters and
within `[A-Za-z0-9_\-=@,.;]`, and fails with a `ValidationError` otherwise;
in particular the literal `"presence-"` fails, a 200-character suffix
passes, and a 201-character suffix fails. -/
theorem channel_from_string_spec (s : Str) :
    ((Channel.fromString s).toOption.map (fun c => (c.channelType, c.name)) =
       if specNameOk (specStripped s) then some (specDetectKind s, specStripped s) else none) ∧
    (specNameOk (specStripped s) = false → isValidationError (Channel.fromString s) = true) ∧
    (Channel.fromString (str "presence-")).toOption = none ∧
    (Channel.fromString (str "presence-" ++ List.replicate 200 'a')).toOption.isSome = true ∧
    (Channel.fromString (str "presence-" ++ List.replicate 201 'a')).toOption = none := by
  refine ⟨?_, ?_, by decide, by decide, by decide⟩
  · rw [fromString_eq]
    by_cases hok : specNameOk (specStripped s) = true
    · rw [validateChannelName_ok _ hok, if_pos hok]
      cases hk : specDetectKind s <;>
        simp [Except.map, Except.toOption, Channel.channelType, Channel.name]
    · rw [if_neg hok]
      obtain ⟨m, hm⟩ := validateChannelName_err _ (Bool.eq_false_iff.mpr hok)
      rw [hm]
      rfl
  · intro hbad
    rw [fromString_eq]
    obtain ⟨m, hm⟩ := validateChannelName_err _ hbad
    rw [hm]
    rfl

theorem isValid_iff (w : Webhook) (extra : Option (List Token)) :
    w.isValid extra = true ↔
      (w.isBodyValid = true ∧
       ∃ t ∈ w.token :: extra.getD [], w.key = some t.key ∧
         ∃ sg, w.signature = some sg ∧ t.verify w.body sg = true) := by
  unfold Webhook.isValid
  by_cases hb : w.isBodyValid = true
  · rw [if_neg (by simp [hb])]
    rw [List.any_eq_true]
    cases extra <;>
      cases hwk : w.key <;>
        cases hws : w.signature <;>
          simp [hb, Option.getD]
  · rw [if_pos (by simp [hb])]
    simp [hb]

/-- C1: for a `Webhook` built from a token, headers and body, `is_valid`
returns false whenever `is_body_valid` is false, and otherwise returns true
exactly when some candidate token — the webhook's own, then the extras in
order — has its key equal to the `x-pusher-key` header value and verifies
the raw body against the `x-pusher-signature` header value. -/
theorem webhook_is_valid_spec (token : Token) (headers : List (Str × Str)) (body : Str)
    (extra : Option (List Token)) :
    ((Webhook.new token headers body).key = btGet (normalizeHeaders headers) (str "x-pusher-key")) ∧
    ((Webhook.new token headers body).signature =
        btGet (normalizeHeaders headers) (str "x-pusher-signature")) ∧
    ((Webhook.new token headers body).body = body) ∧
    ((Webhook.new token headers body).isValid extra = true ↔
       ((Webhook.new token headers body).isBodyValid = true ∧
        ∃ t ∈ token :: extra.getD [],
          (Webhook.new token headers body).key = some t.key ∧
          ∃ sg, (Webhook.new token headers body).signature = some sg ∧
            t.verify body sg = true)) :=
  ⟨rfl, rfl, rfl, isValid_iff (Webhook.new token headers body) extra⟩

/-- C5 counterexample: a body that parses as the webhook schema taken by a
`Webhook` with no headers at all — the body parses, yet `is_body_valid` is
false, because the parse is attempted only under an `application/json`
content type. -/
theorem is_body_valid_counterexample :
    (sonicFromStr (str "\x7b\"time_ms\": 1234567890, \"events\": []\x7d")).isSome = true ∧
    (Webhook.new { key := str "key", secret := str "secret" } []
        (str "\x7b\"time_ms\": 1234567890, \"events\": []\x7d")).isBodyValid = false := by
  constructor
  · decide
  · rfl

/-- C5 amended: `is_body_valid` is true exactly when the `content-type`
header starts with `application/json` AND the raw body parses as the
expected webhook schema; it never looks at the signature headers. -/
theorem is_body_valid_amended (token : Token) (headers : List (Str × Str)) (body : Str) :
    (Webhook.new token headers body).isBodyValid =
      (validateContentType (btGet (normalizeHeaders headers) (str "content-type")) &&
        (sonicFromStr body).isSome) := by
  unfold Webhook.new Webhook.isBodyValid
  by_cases h : validateContentType (btGet (normalizeHeaders headers) (str "content-type")) = true <;>
    simp [h]

/-- C6: `channel_shared_secret` fails with an `EncryptionError` when no
master key is configured, and otherwise returns the 32-byte SHA-256 digest
of the channel name bytes followed by the master-key bytes; it is
deterministic in the channel name and configured master key. -/
theorem channel_shared_secret_spec (cfg cfg2 : Config) (channel : Str) :
    (cfg.encryptionMasterKey = none → isEncryptionError (channelSharedSecret cfg channel) = true) ∧
    (∀ k, cfg.encryptionMasterKey = some k →
        channelSharedSecret cfg channel = .ok (sha256 (utf8Bytes channel ++ k)) ∧
        (sha256 (utf8Bytes channel ++ k)).length = 32) ∧
    (cfg2.encryptionMasterKey = cfg.encryptionMasterKey →
        channelSharedSecret cfg2 channel = channelSharedSecret cfg channel) := by
  refine ⟨fun h => ?_, fun k hk => ⟨?_, sha256_length _⟩, fun h => ?_⟩
  · unfold channelSharedSecret
    rw [h]
    rfl
  · unfold channelSharedSecret
    rw [hk]
  · unfold channelSharedSecret
    rw [h]

/-- C7: a successful `get_socket_signature` carries `shared_secret` exactly
when the channel name starts with `private-encrypted-`, in which case it is
the base64 encoding of the derived per-channel secret; on an encrypted
channel with no configured master key the call fails with an
`EncryptionError` instead. -/
theorem socket_auth_shared_secret_spec (cfg : Config) (token : Token) (channel socketId : Str)
    (data : Option Str) :
    (∀ r, getSocketSignature cfg token channel socketId data = .ok r →
        (r.sharedSecret.isSome = isEncryptedChannelName channel) ∧
        (∀ k, cfg.encryptionMasterKey = some k → isEncryptedChannelName channel = true →
            r.sharedSecret = some (base64Encode (sha256 (utf8Bytes channel ++ k))))) ∧
    (isEncryptedChannelName channel = true → cfg.encryptionMasterKey = none →
        isEncryptionError (getSocketSignature cfg token channel socketId data) = true) := by
  constructor
  · intro r hr
    unfold getSocketSignature at hr
    by_cases he : isEncryptedChannelName channel = true
    · rw [if_pos he] at hr
      cases hmk : cfg.encryptionMasterKey with
      | none => rw [hmk] at hr; cases hr
      | some k =>
          rw [hmk] at hr
          unfold channelSharedSecret at hr
          rw [hmk] at hr
          injection hr with hr2
          subst hr2
          refine ⟨by simp [he], fun k2 hk2 _ => ?_⟩
          have hk3 : k2 = k := ((Option.some.injEq _ _).mp hk2).symm
          rw [hk3]
    · rw [if_neg he] at hr
      injection hr with hr2
      subst hr2
      refine ⟨by simp [Bool.eq_false_iff.mpr he], fun k2 hk2 henc => absurd henc he⟩
  · intro he hmk
    unfold getSocketSignature
    rw [if_pos he, hmk]
    rfl

/-- C9: `authorize_channel` and `authenticate_user` fail with a
`ValidationError` whenever the socket id does not match the anchored pattern
of one or more decimal digits, a dot, and one or more decimal digits;
`validate_socket_id` succeeds exactly when the pattern matches, so
`123.456` and `0.0` are accepted while `123`, `123.456.789` and `abc.def`
are rejected with a `ValidationError`. -/
theorem socket_id_validation_spec (cfg : Config) (channel : Channel) (data : Option Str)
    (userData : Json) (sid : Str) :
    (socketIdMatches sid = false →
        isValidationError (authorizeChannel cfg sid channel data) = true ∧
        isValidationError (authenticateUser cfg sid userData) = true) ∧
    (validateSocketId sid = .ok () ↔ socketIdMatches sid = true) ∧
    validateSocketId (str "123.456") = .ok () ∧
    validateSocketId (str "0.0") = .ok () ∧
    isValidationError (validateSocketId (str "123")) = true ∧
    isValidationError (validateSocketId (str "123.456.789")) = true ∧
    isValidationError (validateSocketId (str "abc.def")) = true := by
  refine ⟨fun h => ?_, ?_, by rfl, by rfl, by decide, by decide, by decide⟩
  · have hv : validateSocketId sid = .error (.validation (str "Invalid socket id")) := by
      unfold validateSocketId
      rw [if_pos (by simp [h])]
    constructor
    · unfold authorizeChannel
      rw [hv]
      rfl
    · unfold authenticateUser
      rw [hv]
      rfl
  · unfold validateSocketId
    by_cases h : socketIdMatches sid = true
    · rw [if_neg (by simp [h])]
      simp [h]
    · rw [if_pos (by simp [h])]
      simp [h]

/-- C10: `events::trigger` on a channel list of two or more channels that
contains an encrypted channel fails with a `ValidationError`; no encryption
is attempted and no request is produced. -/
theorem trigger_multi_encrypted (sealFn : List Nat → List Nat → List Nat → List Nat)
    (cfg : Config) (channels : List Channel) (eventName data : Str)
    (params : Option TriggerParams) (nonce : List Nat)
    (hlen : 2 ≤ channels.length) (henc : ∃ c ∈ channels, c.isEncrypted = true) :
    ∃ m, trigger sealFn cfg channels eventName data params nonce = .error (.validation m) := by
  unfold trigger
  by_cases hn : 200 < byteLen eventName
  · exact ⟨_, by rw [if_pos hn]⟩
  rw [if_neg hn]
  have hcond : ¬ (channels.length = 1 ∧ (channels.headD (.public [])).isEncrypted = true) := by
    rintro ⟨h1, _⟩
    omega
  rw [if_neg hcond]
  have hany : channels.any Channel.isEncrypted = true := List.any_eq_true.mpr henc
  exact ⟨_, by rw [if_pos hany]⟩

/-- C10 witness: a two-channel trigger with an encrypted channel concretely
fails with a `ValidationError`. -/
theorem trigger_multi_encrypted_witness :
    ∃ m, trigger (fun a _ _ => a)
        { appId := str "1", token := { key := str "k", secret := str "s" },
          encryptionMasterKey := none }
        [Channel.encrypted (str "a"), Channel.public (str "b")]
        (str "ev") (str "d") none [] = .error (.validation m) :=
  trigger_multi_encrypted _ _ _ _ _ _ _ (by decide) (by decide)

theorem compareBytes_eq_iff (a b : List Nat) : compareBytes a b = .eq ↔ a = b := by
  induction a generalizing b with
  | nil => cases b <;> simp [compareBytes]
  | cons x xs ih =>
      cases b with
      | nil => simp [compareBytes]
      | cons y ys =>
          unfold compareBytes
          cases hxy : compare x y with
          | eq =>
              have h2 := Nat.compare_eq_eq.mp hxy
              subst h2
              simp [ih]
          | lt =>
              have h2 := Nat.compare_eq_lt.mp hxy
              simp
              intro he
              omega
          | gt =>
              have h2 := Nat.compare_eq_gt.mp hxy
              simp
              intro he
              omega

theorem compareBytes_lt_iff (a b : List Nat) :
    compareBytes a b = .lt ↔ List.Lex (· < ·) a b := by
  induction a generalizing b with
  | nil =>
      cases b with
      | nil => simp [compareBytes, List.Lex.not_nil_right]
      | cons y ys =>
          simp only [compareBytes]
          exact iff_of_true trivial List.Lex.nil
  | cons x xs ih =>
      cases b with
      | nil => simp [compareBytes, List.Lex.not_nil_right]
      | cons y ys =>
          unfold compareBytes
          cases hxy : compare x y with
          | lt => exact iff_of_true rfl (List.Lex.rel (Nat.compare_eq_lt.mp hxy))
          | eq =>
              have h2 := Nat.compare_eq_eq.mp hxy
              subst h2
              rw [List.Lex.cons_iff]
              exact ih ys
          | gt =>
              have hyx := Nat.compare_eq_gt.mp hxy
              refine iff_of_false (by simp) ?_
              intro hl
              cases hl with
              | rel h3 => omega
              | cons h3 => omega

theorem lexTrans {a b c : List Nat} (h1 : List.Lex (· < ·) a b) (h2 : List.Lex (· < ·) b c) :
    List.Lex (· < ·) a c := lt_trans (a := a) (b := b) (c := c) h1 h2

theorem lexTotal (a b : List Nat) (hne : a ≠ b) :
    List.Lex (· < ·) a b ∨ List.Lex (· < ·) b a := lt_or_gt_of_ne (a := a) (b := b) hne

theorem compareBytes_gt_lt {a b : List Nat} (h : compareBytes a b = .gt) :
    compareBytes b a = .lt := by
  have hne : a ≠ b := fun he => by rw [(compareBytes_eq_iff a b).mpr he] at h; cases h
  have hnl : ¬ List.Lex (· < ·) a b := fun hl => by
    rw [(compareBytes_lt_iff a b).mpr hl] at h
    cases h
  rcases lexTotal a b hne with hl | hl
  · exact absurd hl hnl
  · exact (compareBytes_lt_iff b a).mpr hl

theorem keyLt_trans {a b c : Str} (h1 : keyLt a b) (h2 : keyLt b c) : keyLt a c := by
  unfold keyLt at *
  exact (compareBytes_lt_iff _ _).mpr
    (lexTrans ((compareBytes_lt_iff _ _).mp h1) ((compareBytes_lt_iff _ _).mp h2))

theorem btInsert_key_mem {k v : Str} {l : List (Str × Str)} {p : Str × Str}
    (hp : p ∈ btInsert k v l) : p.1 = k ∨ p.1 ∈ l.map Prod.fst := by
  induction l with
  | nil =>
      simp [btInsert] at hp
      simp [hp]
  | cons hd tl ih =>
      unfold btInsert at hp
      cases hcmp : compareBytes (utf8Bytes k) (utf8Bytes hd.1) <;> rw [hcmp] at hp
      · rcases List.mem_cons.mp hp with h | h
        · exact Or.inl (by rw [h])
        · exact Or.inr (List.mem_map_of_mem Prod.fst h)
      · rcases List.mem_cons.mp hp with h | h
        · exact Or.inr (by rw [h]; exact List.mem_map.mpr ⟨hd, List.mem_cons_self hd tl, rfl⟩)
        · exact Or.inr (List.map_subset Prod.fst (List.subset_cons_self hd tl) (List.mem_map_of_mem Prod.fst h))
      · rcases List.mem_cons.mp hp with h | h
        · exact Or.inr (by rw [h]; exact List.mem_map.mpr ⟨hd, List.mem_cons_self hd tl, rfl⟩)
        · rcases ih h with h2 | h2
          · exact Or.inl h2
          · exact Or.inr (List.map_subset Prod.fst (List.subset_cons_self hd tl) h2)

theorem btInsert_pairwise {k v : Str} {l : List (Str × Str)}
    (h : l.Pairwise (fun p q => keyLt p.1 q.1)) :
    (btInsert k v l).Pairwise (fun p q => keyLt p.1 q.1) := by
  induction l with
  | nil => simp [btInsert]
  | cons hd tl ih =>
      obtain ⟨hhd, htl⟩ := List.pairwise_cons.mp h
      unfold btInsert
      cases hcmp : compareBytes (utf8Bytes k) (utf8Bytes hd.1)
      · refine List.Pairwise.cons ?_ h
        intro q hq
        rcases List.mem_cons.mp hq with h2 | h2
        · rw [h2]
          exact hcmp
        · exact keyLt_trans hcmp (hhd q h2)
      · exact List.Pairwise.cons hhd htl
      · refine List.Pairwise.cons ?_ (ih htl)
        intro q hq
        rcases btInsert_key_mem hq with h2 | h2
        · rw [keyLt, h2]
          exact compareBytes_gt_lt hcmp
        · obtain ⟨p, hpmem, hpeq⟩ := List.mem_map.mp h2
          rw [keyLt, ← hpeq]
          exact hhd p hpmem

theorem btInsert_mem_preserved {k v : Str} {l : List (Str × Str)} {p : Str × Str}
    (hp : p ∈ l) (hne : utf8Bytes p.1 ≠ utf8Bytes k) : p ∈ btInsert k v l := by
  induction l with
  | nil => cases hp
  | cons hd tl ih =>
      unfold btInsert
      cases hcmp : compareBytes (utf8Bytes k) (utf8Bytes hd.1)
      · exact List.mem_cons_of_mem _ hp
      · rcases List.mem_cons.mp hp with h2 | h2
        · exact absurd ((compareBytes_eq_iff _ _).mp hcmp).symm (by rw [h2] at hne; exact hne)
        · exact List.mem_cons_of_mem _ h2
      · rcases List.mem_cons.mp hp with h2 | h2
        · rw [h2]
          exact List.mem_cons_self hd _
        · exact List.mem_cons_of_mem _ (ih h2)

theorem btInsert_self_mem {k v : Str} {l : List (Str × Str)}
    (hne : ∀ p ∈ l, utf8Bytes p.1 ≠ utf8Bytes k) : (k, v) ∈ btInsert k v l := by
  induction l with
  | nil => exact List.mem_cons_self _ _
  | cons hd tl ih =>
      unfold btInsert
      cases hcmp : compareBytes (utf8Bytes k) (utf8Bytes hd.1)
      · exact List.mem_cons_self _ _
      · exact absurd ((compareBytes_eq_iff _ _).mp hcmp).symm (hne hd (List.mem_cons_self hd tl))
      · exact List.mem_cons_of_mem _ (ih (fun p hp => hne p (List.mem_cons_of_mem _ hp)))

theorem foldl_btInsert_mem {ps m : List (Str × Str)} {p : Str × Str}
    (hp : p ∈ m) (hne : ∀ kv ∈ ps, utf8Bytes kv.1 ≠ utf8Bytes p.1) :
    p ∈ ps.foldl (fun acc q => btInsert q.1 q.2 acc) m := by
  induction ps generalizing m with
  | nil => exact hp
  | cons kv rest ih =>
      rw [List.foldl_cons]
      exact ih (btInsert_mem_preserved hp (hne kv (List.mem_cons_self _ _)).symm)
        (fun q hq => hne q (List.mem_cons_of_mem _ hq))

theorem foldl_btInsert_keys {ps m : List (Str × Str)} {key : Str}
    (h : key ∈ (ps.foldl (fun acc q => btInsert q.1 q.2 acc) m).map Prod.fst) :
    key ∈ m.map Prod.fst ∨ ∃ kv ∈ ps, key = kv.1 := by
  induction ps generalizing m with
  | nil => exact Or.inl h
  | cons kv rest ih =>
      rw [List.foldl_cons] at h
      rcases ih h with h2 | h2
      · obtain ⟨p, hpmem, hpeq⟩ := List.mem_map.mp h2
        rcases btInsert_key_mem hpmem with h3 | h3
        · exact Or.inr ⟨kv, List.mem_cons_self _ _, by rw [← hpeq, h3]⟩
        · exact Or.inl (hpeq ▸ h3)
      · obtain ⟨q, hq, he⟩ := h2
        exact Or.inr ⟨q, List.mem_cons_of_mem _ hq, he⟩

theorem foldl_btInsert_pairwise {ps m : List (Str × Str)}
    (h : m.Pairwise (fun p q => keyLt p.1 q.1)) :
    (ps.foldl (fun acc q => btInsert q.1 q.2 acc) m).Pairwise (fun p q => keyLt p.1 q.1) := by
  induction ps generalizing m with
  | nil => exact h
  | cons kv rest ih =>
      rw [List.foldl_cons]
      exact ih (btInsert_pairwise h)

theorem foldl_btInsert_param_mem {ps : List (Str × Str)} :
    ∀ {m : List (Str × Str)},
    (∀ kv ∈ ps, ∀ key ∈ m.map Prod.fst, utf8Bytes key ≠ utf8Bytes kv.1) →
    ps.Pairwise (fun a b => utf8Bytes a.1 ≠ utf8Bytes b.1) →
    ∀ kv ∈ ps, kv ∈ ps.foldl (fun acc q => btInsert q.1 q.2 acc) m := by
  induction ps with
  | nil => intro m _ _ kv h; cases h
  | cons kv0 rest ih =>
      intro m hdisj hnodup kv hkv
      obtain ⟨hkv0, hrest⟩ := List.pairwise_cons.mp hnodup
      rw [List.foldl_cons]
      rcases List.mem_cons.mp hkv with rfl | hmem
      · apply foldl_btInsert_mem
        · exact btInsert_self_mem (fun p hp =>
            hdisj kv (List.mem_cons_self _ _) p.1 (List.mem_map_of_mem Prod.fst hp))
        · intro q hq
          exact (hkv0 q hq).symm
      · refine ih ?_ hrest kv hmem
        intro q hq key hkey
        obtain ⟨p, hpmem, hpeq⟩ := List.mem_map.mp hkey
        rcases btInsert_key_mem hpmem with h3 | h3
        · rw [← hpeq, h3]
          exact hkv0 q hq
        · rw [← hpeq]
          exact hdisj q (List.mem_cons_of_mem _ hq) p.1 h3

theorem bytes_ne_of_ne_ascii {x r : Str} (ha : ∀ c ∈ r, c.toNat < 0x80) (hne : x ≠ r) :
    utf8Bytes x ≠ utf8Bytes r := fun h => hne (eq_of_utf8Bytes_eq_ascii r x ha h)

example :
    btInsert (str "auth_version") (str "1.0")
      (btInsert (str "auth_timestamp") (str "42")
        (btInsert (str "auth_key") (str "K") [])) =
    [(str "auth_key", str "K"), (str "auth_timestamp", str "42"),
     (str "auth_version", str "1.0")] := rfl

example (token : Token) (ts : Nat) :
    btInsert (str "auth_version") (str "1.0")
      (btInsert (str "auth_timestamp") (natToStr ts)
        (btInsert (str "auth_key") token.key [])) =
    [(str "auth_key", token.key), (str "auth_timestamp", natToStr ts),
     (str "auth_version", str "1.0")] := rfl

example (token : Token) (ts : Nat) (b : Str) (params : List (Str × Str)) :
    collectQueryParams token ts (some b) params =
      params.foldl (fun m p => btInsert p.1 p.2 m)
        [(str "auth_key", token.key), (str "auth_timestamp", natToStr ts),
         (str "auth_version", str "1.0"), (str "body_md5", getMd5 b)] := rfl

example (token : Token) (ts : Nat) :
    ([(str "auth_key", token.key), (str "auth_timestamp", natToStr ts),
      (str "auth_version", str "1.0")]).Pairwise (fun p q => keyLt p.1 q.1) := by
  refine List.Pairwise.cons ?_ (List.Pairwise.cons ?_ (List.Pairwise.cons ?_ List.Pairwise.nil))
  · intro q hq
    rcases List.mem_cons.mp hq with rfl | hq2
    · exact (by decide : keyLt (str "auth_key") (str "auth_timestamp"))
    rcases List.mem_cons.mp hq2 with rfl | hq3
    · exact (by decide : keyLt (str "auth_key") (str "auth_version"))
    cases hq3
  · intro q hq
    rcases List.mem_cons.mp hq with rfl | hq2
    · exact (by decide : keyLt (str "auth_timestamp") (str "auth_version"))
    cases hq2
  · intro q hq
    cases hq

/-- C2: `create_signed_query_string` collects `auth_key`, `auth_timestamp`,
`auth_version = "1.0"`, `body_md5` (present exactly when a body is), and
every caller parameter; the collected map is sorted by key
byte-lexicographically and rendered as `key=value` joined by `&`; the
signature is over `METHOD\nPATH\nsorted query string` with the method
upper-cased, appended last as `auth_signature`, which is itself never part
of the signed set. -/
theorem create_signed_query_string_spec (token : Token) (method path : Str) (body : Option Str)
    (params : List (Str × Str)) (ts : Nat)
    (hk : ∀ kv ∈ params, kv.1 ∉ [str "auth_key", str "auth_timestamp", str "auth_version",
        str "body_md5", str "auth_signature"])
    (hnodup : params.Pairwise (fun a b => utf8Bytes a.1 ≠ utf8Bytes b.1)) :
    createSignedQueryString token method path body params ts =
        List.intercalate (str "&") (toOrderedArray (collectQueryParams token ts body params)) ++
        str "&auth_signature=" ++
        token.sign (toUpperStr method ++ '\n' :: path ++ '\n' ::
          List.intercalate (str "&") (toOrderedArray (collectQueryParams token ts body params))) ∧
    (collectQueryParams token ts body params).Pairwise (fun p q => keyLt p.1 q.1) ∧
    (str "auth_key", token.key) ∈ collectQueryParams token ts body params ∧
    (str "auth_timestamp", natToStr ts) ∈ collectQueryParams token ts body params ∧
    (str "auth_version", str "1.0") ∈ collectQueryParams token ts body params ∧
    (∀ b, body = some b → (str "body_md5", getMd5 b) ∈ collectQueryParams token ts body params) ∧
    (body = none → str "body_md5" ∉ (collectQueryParams token ts body params).map Prod.fst) ∧
    (∀ kv ∈ params, kv ∈ collectQueryParams token ts body params) ∧
    str "auth_signature" ∉ (collectQueryParams token ts body params).map Prod.fst := by
  have hne1 : ∀ kv ∈ params, utf8Bytes kv.1 ≠ utf8Bytes (str "auth_key") := fun kv hkv =>
    bytes_ne_of_ne_ascii (by decide) (fun he => hk kv hkv (by rw [he]; simp))
  have hne2 : ∀ kv ∈ params, utf8Bytes kv.1 ≠ utf8Bytes (str "auth_timestamp") := fun kv hkv =>
    bytes_ne_of_ne_ascii (by decide) (fun he => hk kv hkv (by rw [he]; simp))
  have hne3 : ∀ kv ∈ params, utf8Bytes kv.1 ≠ utf8Bytes (str "auth_version") := fun kv hkv =>
    bytes_ne_of_ne_ascii (by decide) (fun he => hk kv hkv (by rw [he]; simp))
  have hne4 : ∀ kv ∈ params, utf8Bytes kv.1 ≠ utf8Bytes (str "body_md5") := fun kv hkv =>
    bytes_ne_of_ne_ascii (by decide) (fun he => hk kv hkv (by rw [he]; simp))
  rcases body with _ | b
  · have hcp : collectQueryParams token ts none params =
        params.foldl (fun m p => btInsert p.1 p.2 m)
          [(str "auth_key", token.key), (str "auth_timestamp", natToStr ts),
           (str "auth_version", str "1.0")] := rfl
    have hsort : ([(str "auth_key", token.key), (str "auth_timestamp", natToStr ts),
        (str "auth_version", str "1.0")]).Pairwise (fun p q => keyLt p.1 q.1) := by
      refine List.Pairwise.cons ?_ (List.Pairwise.cons ?_ (List.Pairwise.cons ?_ List.Pairwise.nil))
      · intro q hq
        rcases List.mem_cons.mp hq with rfl | hq2
        · exact (by decide : keyLt (str "auth_key") (str "auth_timestamp"))
        rcases List.mem_cons.mp hq2 with rfl | hq3
        · exact (by decide : keyLt (str "auth_key") (str "auth_version"))
        cases hq3
      · intro q hq
        rcases List.mem_cons.mp hq with rfl | hq2
        · exact (by decide : keyLt (str "auth_timestamp") (str "auth_version"))
        cases hq2
      · intro q hq
        cases hq
    refine ⟨rfl, ?_, ?_, ?_, ?_, ?_, ?_, ?_, ?_⟩
    · rw [hcp]
      exact foldl_btInsert_pairwise hsort
    · rw [hcp]
      exact foldl_btInsert_mem (List.mem_cons_self _ _) hne1
    · rw [hcp]
      exact foldl_btInsert_mem (List.mem_cons_of_mem _ (List.mem_cons_self _ _)) hne2
    · rw [hcp]
      exact foldl_btInsert_mem
        (List.mem_cons_of_mem _ (List.mem_cons_of_mem _ (List.mem_cons_self _ _))) hne3
    · intro b hb
      exact Option.noConfusion hb
    · intro _ hmem
      rw [hcp] at hmem
      rcases foldl_btInsert_keys hmem with h | ⟨kv, hkv, he⟩
      · simp only [List.map_cons, List.map_nil, List.mem_cons, List.not_mem_nil, or_false] at h
        rcases h with h | h | h <;> exact absurd h (by decide)
      · exact hk kv hkv (by rw [← he]; simp)
    · rw [hcp]
      refine foldl_btInsert_param_mem ?_ hnodup
      intro q hq key hkey
      simp only [List.map_cons, List.map_nil, List.mem_cons, List.not_mem_nil, or_false] at hkey
      rcases hkey with rfl | rfl | rfl
      · exact (hne1 q hq).symm
      · exact (hne2 q hq).symm
      · exact (hne3 q hq).symm
    · intro hmem
      rw [hcp] at hmem
      rcases foldl_btInsert_keys hmem with h | ⟨kv, hkv, he⟩
      · simp only [List.map_cons, List.map_nil, List.mem_cons, List.not_mem_nil, or_false] at h
        rcases h with h | h | h <;> exact absurd h (by decide)
      · exact hk kv hkv (by rw [← he]; simp)
  · have hcp : collectQueryParams token ts (some b) params =
        params.foldl (fun m p => btInsert p.1 p.2 m)
          [(str "auth_key", token.key), (str "auth_timestamp", natToStr ts),
           (str "auth_version", str "1.0"), (str "body_md5", getMd5 b)] := rfl
    have hsort : ([(str "auth_key", token.key), (str "auth_timestamp", natToStr ts),
        (str "auth_version", str "1.0"), (str "body_md5", getMd5 b)]).Pairwise
          (fun p q => keyLt p.1 q.1) := by
      refine List.Pairwise.cons ?_ (List.Pairwise.cons ?_ (List.Pairwise.cons ?_
        (List.Pairwise.cons ?_ List.Pairwise.nil)))
      · intro q hq
        rcases List.mem_cons.mp hq with rfl | hq2
        · exact (by decide : keyLt (str "auth_key") (str "auth_timestamp"))
        rcases List.mem_cons.mp hq2 with rfl | hq3
        · exact (by decide : keyLt (str "auth_key") (str "auth_version"))
        rcases List.mem_cons.mp hq3 with rfl | hq4
        · exact (by decide : keyLt (str "auth_key") (str "body_md5"))
        cases hq4
      · intro q hq
        rcases List.mem_cons.mp hq with rfl | hq2
        · exact (by decide : keyLt (str "auth_timestamp") (str "auth_version"))
        rcases List.mem_cons.mp hq2 with rfl | hq3
        · exact (by decide : keyLt (str "auth_timestamp") (str "body_md5"))
        cases hq3
      · intro q hq
        rcases List.mem_cons.mp hq with rfl | hq2
        · exact (by decide : keyLt (str "auth_version") (str "body_md5"))
        cases hq2
      · intro q hq
        cases hq
    refine ⟨rfl, ?_, ?_, ?_, ?_, ?_, ?_, ?_, ?_⟩
    · rw [hcp]
      exact foldl_btInsert_pairwise hsort
    · rw [hcp]
      exact foldl_btInsert_mem (List.mem_cons_self _ _) hne1
    · rw [hcp]
      exact foldl_btInsert_mem (List.mem_cons_of_mem _ (List.mem_cons_self _ _)) hne2
    · rw [hcp]
      exact foldl_btInsert_mem
        (List.mem_cons_of_mem _ (List.mem_cons_of_mem _ (List.mem_cons_self _ _))) hne3
    · intro b2 hb2
      injection hb2 with hb3
      subst hb3
      rw [hcp]
      exact foldl_btInsert_mem (by simp) hne4
    · intro h
      exact Option.noConfusion h
    · rw [hcp]
      refine foldl_btInsert_param_mem ?_ hnodup
      intro q hq key hkey
      simp only [List.map_cons, List.map_nil, List.mem_cons, List.not_mem_nil, or_false] at hkey
      rcases hkey with rfl | rfl | rfl | rfl
      · exact (hne1 q hq).symm
      · exact (hne2 q hq).symm
      · exact (hne3 q hq).symm
      · exact (hne4 q hq).symm
    · intro hmem
      rw [hcp] at hmem
      rcases foldl_btInsert_keys hmem with h | ⟨kv, hkv, he⟩
      · simp only [List.map_cons, List.map_nil, List.mem_cons, List.not_mem_nil, or_false] at h
        rcases h with h | h | h | h <;> exact absurd h (by decide)
      · exact hk kv hkv (by rw [← he]; simp)


/-- C2 witness: the theorem applied at a concrete token, method, path and
timestamp with no body and no caller parameters. -/
theorem create_signed_query_string_spec_witness :
    (str "auth_key", str "k") ∈
      collectQueryParams { key := str "k", secret := str "s" } 7 none [] :=
  (create_signed_query_string_spec { key := str "k", secret := str "s" } (str "post")
    (str "/p") none [] 7 (by simp) List.Pairwise.nil).2.2.1

theorem specNameOk_of {s : Str} (h1 : s ≠ []) (h2 : s.length ≤ 200)
    (h3 : s.all inNameClass = true) : specNameOk s = true := by
  unfold specNameOk
  rw [Bool.and_eq_true, Bool.and_eq_true]
  exact ⟨⟨by simp [List.isEmpty_eq_false, h1], by simp [h2]⟩, h3⟩

theorem specNameOk_suffix {pre t : Str} (h2 : (pre ++ t).length ≤ 200)
    (h3 : (pre ++ t).all inNameClass = true) (hne : t ≠ []) : specNameOk t = true := by
  rw [List.all_append, Bool.and_eq_true] at h3
  rw [List.length_append] at h2
  exact specNameOk_of hne (by omega) h3.2

theorem isPrefixOf_append_self (a t : Str) : a.isPrefixOf (a ++ t) = true :=
  List.isPrefixOf_iff_prefix.mpr (List.prefix_append a t)

theorem not_prefix_head {a b : Str} (t : Str) (n : Nat) (hn1 : n ≤ a.length)
    (hn2 : n ≤ b.length) (hne : a.take n ≠ b.take n) : a.isPrefixOf (b ++ t) = false := by
  rw [Bool.eq_false_iff]
  intro h
  obtain ⟨r, hr⟩ := List.isPrefixOf_iff_prefix.mp h
  apply hne
  calc a.take n = (a ++ r).take n := (List.take_append_of_le_length hn1).symm
    _ = (b ++ t).take n := by rw [hr]
    _ = b.take n := List.take_append_of_le_length hn2

/-- C8 counterexample: the string `private-` is non-empty, within 200
characters and inside the channel character class, and the empty prefix is
one of the four, yet `from_string("" ++ "private-")` fails — the `private-`
prefix is stripped and the remaining name is empty. -/
theorem round_trip_counterexample :
    (str "private-") ≠ [] ∧ (str "private-").length ≤ 200 ∧
    (str "private-").all inNameClass = true ∧
    str "" ∈ [str "", str "private-", str "presence-", str "private-encrypted-"] ∧
    (Channel.fromString (str "" ++ str "private-")).toOption = none := by
  refine ⟨by decide, by decide, by decide, by simp, by decide⟩

/-- C8 amended: for every non-empty `s` of at most 200 characters in the
channel character class and each prefix among the four, `from_string(prefix
+ s)` succeeds with `full_name()` returning exactly `prefix + s` — except in
the cases the counterexample forces, where the concatenation itself strips
to an empty name: prefix `""` with `s` one of `private-`, `presence-`,
`private-encrypted-`, or prefix `private-` with `s = "encrypted-"`. -/
theorem round_trip_amended (s p : Str)
    (h1 : s ≠ []) (h2 : s.length ≤ 200) (h3 : s.all inNameClass = true)
    (hp : p ∈ [str "", str "private-", str "presence-", str "private-encrypted-"])
    (hx1 : p = str "" → s ≠ str "private-" ∧ s ≠ str "presence-" ∧
        s ≠ str "private-encrypted-")
    (hx2 : p = str "private-" → s ≠ str "encrypted-") :
    ∃ c, Channel.fromString (p ++ s) = .ok c ∧ c.fullName = p ++ s := by
  simp only [List.mem_cons, List.not_mem_nil, or_false] at hp
  rcases hp with rfl | rfl | rfl | rfl
  · -- empty prefix
    obtain ⟨hx1a, hx1b, hx1c⟩ := hx1 rfl
    show ∃ c, Channel.fromString s = .ok c ∧ c.fullName = s
    by_cases e1 : (str "private-encrypted-").isPrefixOf s = true
    · obtain ⟨t, rfl⟩ := List.isPrefixOf_iff_prefix.mp e1
      have ht : t ≠ [] := by
        rintro rfl
        exact hx1c (by simp)
      refine ⟨.encrypted t, ?_, rfl⟩
      unfold Channel.fromString
      rw [if_pos e1, List.drop_left]
      simp [validateChannelName_ok _ (specNameOk_suffix h2 h3 ht), Except.map]
    · by_cases e2 : (str "presence-").isPrefixOf s = true
      · obtain ⟨t, rfl⟩ := List.isPrefixOf_iff_prefix.mp e2
        have ht : t ≠ [] := by
          rintro rfl
          exact hx1b (by simp)
        refine ⟨.presence t, ?_, rfl⟩
        unfold Channel.fromString
        rw [if_neg e1, if_pos e2, List.drop_left]
        simp [validateChannelName_ok _ (specNameOk_suffix h2 h3 ht), Except.map]
      · by_cases e3 : (str "private-").isPrefixOf s = true
        · obtain ⟨t, rfl⟩ := List.isPrefixOf_iff_prefix.mp e3
          have ht : t ≠ [] := by
            rintro rfl
            exact hx1a (by simp)
          refine ⟨.private_ t, ?_, rfl⟩
          unfold Channel.fromString
          rw [if_neg e1, if_neg e2, if_pos e3, List.drop_left]
          simp [validateChannelName_ok _ (specNameOk_suffix h2 h3 ht), Except.map]
        · refine ⟨.public s, ?_, rfl⟩
          unfold Channel.fromString
          rw [if_neg e1, if_neg e2, if_neg e3]
          simp [validateChannelName_ok _ (specNameOk_of h1 h2 h3), Except.map]
  · -- the private- prefix
    by_cases henc : (str "encrypted-").isPrefixOf s = true
    · obtain ⟨t, rfl⟩ := List.isPrefixOf_iff_prefix.mp henc
      have ht : t ≠ [] := by
        rintro rfl
        exact hx2 rfl (by simp)
      have hsplit : str "private-" ++ (str "encrypted-" ++ t) =
          str "private-encrypted-" ++ t := by
        rw [← List.append_assoc]
        rfl
      have e1 : (str "private-encrypted-").isPrefixOf
          (str "private-" ++ (str "encrypted-" ++ t)) = true := by
        rw [hsplit]
        exact isPrefixOf_append_self _ _
      refine ⟨.encrypted t, ?_, ?_⟩
      · unfold Channel.fromString
        rw [if_pos e1, hsplit, List.drop_left]
        simp [validateChannelName_ok _ (specNameOk_suffix h2 h3 ht), Except.map]
      · show str "private-encrypted-" ++ t = _
        rw [hsplit]
    · have e1 : (str "private-encrypted-").isPrefixOf (str "private-" ++ s) = false := by
        rw [Bool.eq_false_iff]
        intro hpre
        have h4 : (str "private-" ++ str "encrypted-") <+: (str "private-" ++ s) :=
          List.isPrefixOf_iff_prefix.mp hpre
        rw [List.prefix_append_right_inj] at h4
        exact henc (List.isPrefixOf_iff_prefix.mpr h4)
      have e2 : (str "presence-").isPrefixOf (str "private-" ++ s) = false :=
        not_prefix_head s 3 (by decide) (by decide) (by decide)
      have e3 := isPrefixOf_append_self (str "private-") s
      refine ⟨.private_ s, ?_, rfl⟩
      unfold Channel.fromString
      rw [if_neg (by simp [e1]), if_neg (by simp [e2]), if_pos e3, List.drop_left]
      simp [validateChannelName_ok _ (specNameOk_of h1 h2 h3), Except.map]
  · -- the presence- prefix
    have e1 : (str "private-encrypted-").isPrefixOf (str "presence-" ++ s) = false :=
      not_prefix_head s 3 (by decide) (by decide) (by decide)
    have e2 := isPrefixOf_append_self (str "presence-") s
    refine ⟨.presence s, ?_, rfl⟩
    unfold Channel.fromString
    rw [if_neg (by simp [e1]), if_pos e2, List.drop_left]
    simp [validateChannelName_ok _ (specNameOk_of h1 h2 h3), Except.map]
  · -- the private-encrypted- prefix
    have e1 := isPrefixOf_append_self (str "private-encrypted-") s
    refine ⟨.encrypted s, ?_, rfl⟩
    unfold Channel.fromString
    rw [if_pos e1, List.drop_left]
    simp [validateChannelName_ok _ (specNameOk_of h1 h2 h3), Except.map]

/-- C8 witness. -/
theorem round_trip_amended_witness :
    ∃ c, Channel.fromString (str "private-" ++ str "foo") = .ok c ∧
      c.fullName = str "private-" ++ str "foo" :=
  round_trip_amended (str "foo") (str "private-") (by decide) (by decide) (by decide)
    (by simp) (fun _ => by decide) (fun _ => by decide)

end PusherRust
